import Mathlib

/-!
# Verification of the NIP-41 key-rotation core (`src/keys.rs`)

Shallow embedding of the repository's single source file `src/keys.rs`.

Modelling conventions, fixed once for the whole development:

* The external `secp256k1` crate is modelled through the discrete
  logarithm: the group of curve points is cyclic of prime order
  `curveOrder`, generated by `G`, so a point is represented by its
  scalar logarithm (a `Nat` taken modulo `curveOrder`).  Point
  addition becomes scalar addition, and adding `diff·G` to a point is
  adding `diff` to its logarithm.
* An x-only public key (`XOnlyPublicKey`) forgets the sign of the
  point: the points `s·G` and `(-s)·G` share an x-coordinate.  The
  x-coordinate itself is abstracted by the canonical representative
  `xonly s = min (s mod q) (q - s mod q)` of the pair `{s, -s}`;
  this is faithful up to the (injective) renaming `{s,-s} ↦ x(s·G)`.
* Lifting an x-only key back to a point under the two parities
  (`Parity::Even` / `Parity::Odd`) yields the two members of the pair
  `{s, -s}`.  Which parity picks which member depends on curve data
  the abstraction does not carry, so the assignment in `liftEven` /
  `liftOdd` is arbitrary; every use in the source tries both, so no
  result below depends on the assignment.
* `SHA256` applied to the concatenation of two 32-byte x-only
  serializations (`KeyManager::hash_of_two_pubkeys`) is an external
  primitive; it is modelled by an unconstrained parameter
  `H : Nat → Nat → Nat` taking the two `xonly` values in the order the
  source concatenates them (previous visible key first) and returning
  the digest read as a big-endian natural number.
* A Rust `panic!` (every `.unwrap()` in the source) is modelled as
  `Option.none`; a value returned through `Result` is an
  `Except Error` value.  `Vec` indexing `k[i]` is modelled with
  `List.getD`; all theorems about `KeyState` carry the state invariant
  `n < k.length` under which every index the source uses is in bounds.
* BIP-32 child-key derivation (`XPrv::derive_from_path` /
  `derive_child`) is an external deterministic primitive, modelled by
  a parameter `derive : List Nat → Nat → Nat` from a master seed and a
  child index to the derived secret scalar.
-/

namespace NIP41

/-- The order of the secp256k1 group (a prime), the modulus of all
secret-scalar arithmetic in the `secp256k1` crate. -/
def curveOrder : Nat :=
  0xFFFFFFFFFFFFFFFFFFFFFFFFFFFFFFFEBAAEDCE6AF48A03BBFD25E8CD0364141

/-- The x-only serialization of the point `s·G`: the canonical
representative of the unordered pair `{s, -s}` of discrete logarithms,
standing in for the shared x-coordinate of `s·G` and `(-s)·G`. -/
def xonly (s : Nat) : Nat :=
  min (s % curveOrder) ((curveOrder - s % curveOrder) % curveOrder)

/-- `XOnlyPublicKey::public_key(Parity::Even)`: one of the two lifts of
an x-only key to a full point, in the discrete-log model.  The
assignment of parities to the two lifts is arbitrary (see the header);
the source always tries both. -/
def liftEven (x : Nat) : Nat := x % curveOrder

/-- `XOnlyPublicKey::public_key(Parity::Odd)`: the other lift, the
negation of `liftEven`. -/
def liftOdd (x : Nat) : Nat := (curveOrder - x % curveOrder) % curveOrder

/-- `struct LevelKeys` (keys.rs:11-16): the visible and hidden keypair
of one level.  A `KeyPair` is determined by its secret key, so each
keypair is represented by its secret scalar. -/
structure LevelKeys where
  vis : Nat
  hid : Nat
deriving DecidableEq, Repr

/-- `LevelKeys::vis_pubkey` (keys.rs:19-21): x-only public key of the
visible keypair. -/
def LevelKeys.vis_pubkey (lk : LevelKeys) : Nat := xonly lk.vis

/-- `LevelKeys::hid_pubkey` (keys.rs:23-25): x-only public key of the
hidden keypair. -/
def LevelKeys.hid_pubkey (lk : LevelKeys) : Nat := xonly lk.hid

/-- `N_DEFAULT` (keys.rs:29): default number of pre-generated levels. -/
def N_DEFAULT : Nat := 256

/-- `enum Error` (keys.rs:39-50).  Its three variants; the `Bip32` and
`Bip39` variants only wrap external-crate errors and carry no payload
the claims need. -/
inductive Error where
  | NoMoreKeyLevels
  | Bip32
  | Bip39
deriving DecidableEq, Repr

/-- `struct KeyState` (keys.rs:32-37): the `N` key levels and the
current-level cursor `n` (initially `N-1`). -/
structure KeyState where
  k : List LevelKeys
  n : Nat
deriving DecidableEq, Repr

/-- `KeyState::levels` (keys.rs:63-65). -/
def KeyState.levels (s : KeyState) : Nat := s.k.length

/-- `KeyState::current_visible_pubkey` (keys.rs:54-56).  The source
indexes `self.k[self.n]` (panic when out of bounds, modelled by `none`)
and always returns `Ok`. -/
def KeyState.current_visible_pubkey (s : KeyState) : Option (Except Error Nat) :=
  (s.k.get? s.n).map (fun lk => Except.ok lk.vis_pubkey)

/-- `KeyState::current_visible_secret_key` (keys.rs:59-61). -/
def KeyState.current_visible_secret_key (s : KeyState) : Option (Except Error Nat) :=
  (s.k.get? s.n).map (fun lk => Except.ok lk.vis)

/-- `KeyState::invalidate` (keys.rs:74-103): on `n = 0` return
`Err(NoMoreKeyLevels)` leaving the state alone; otherwise save
`n_prev = n`, set `n := n - 1`, and return the visible and hidden
public keys of level `n_prev`, the visible public key of level
`n_prev - 1`, and the visible public keys of the slice
`k[n_prev..levels()]`.  The state is threaded explicitly (`&mut self`);
indexing uses `getD`, in bounds whenever `n < k.length`. -/
def KeyState.invalidate (s : KeyState) :
    Except Error (Nat × Nat × Nat × List Nat) × KeyState :=
  if s.n = 0 then
    (Except.error Error.NoMoreKeyLevels, s)
  else
    let nPrev := s.n
    let nPost := s.n - 1
    let s2 : KeyState := { k := s.k, n := nPost }
    (Except.ok ((s.k.getD nPrev ⟨0, 0⟩).vis_pubkey,
        (s.k.getD nPrev ⟨0, 0⟩).hid_pubkey,
        (s.k.getD nPost ⟨0, 0⟩).vis_pubkey,
        (s.k.drop nPrev).map LevelKeys.vis_pubkey),
      s2)

/-- The tail of `KeyManager::next_level` (keys.rs:190-196), given the
already-computed commitment digest `hash`:
`Scalar::from_be_bytes(hash).unwrap()` panics (`none`) when the digest
is not below the curve order, and
`sk_next_hid.add_tweak(&diff).unwrap()` panics when the tweaked secret
`(sk + diff) mod q` is the invalid (zero) key; otherwise the next
level's visible secret is `(sk + diff) mod q` and its hidden secret is
`sk` itself. -/
def nextLevelFromHash (hash : Nat) (sk_next_hid : Nat) : Option LevelKeys :=
  if curveOrder ≤ hash then none
  else if (sk_next_hid + hash) % curveOrder = 0 then none
  else some { vis := (sk_next_hid + hash) % curveOrder, hid := sk_next_hid }

/-- `KeyManager::next_level` (keys.rs:185-197): hash the previous
level's visible public key together with the next hidden public key
(`hash_of_two_pubkeys`, previous visible first), then tweak. -/
def next_level (H : Nat → Nat → Nat) (prev : LevelKeys) (sk_next_hid : Nat) :
    Option LevelKeys :=
  nextLevelFromHash (H prev.vis_pubkey (xonly sk_next_hid)) sk_next_hid

/-- The `for i in 1..levels` loop of `generate_levels_internal`
(keys.rs:165-170): starting from `current`, derive one level per
remaining hidden secret, collecting the new levels in order. -/
def buildLevels (H : Nat → Nat → Nat) : LevelKeys → List Nat → Option (List LevelKeys)
  | _, [] => some []
  | current, sk :: rest =>
    match next_level H current sk with
    | none => none
    | some next => (buildLevels H next rest).map (fun ks => next :: ks)

/-- `KeyManager::generate_levels_internal` (keys.rs:154-174): level 0's
visible and hidden keypairs are both built from `sk[0]` (the indexing
panics on an empty input, modelled by `none`), the remaining levels
come from the `next_level` loop, and the cursor starts at
`levels - 1`. -/
def generate_levels_internal (H : Nat → Nat → Nat) (sk : List Nat) :
    Option KeyState :=
  match sk with
  | [] => none
  | sk0 :: rest =>
    let lvl0 : LevelKeys := { vis := sk0, hid := sk0 }
    (buildLevels H lvl0 rest).map
      (fun ks => { k := lvl0 :: ks, n := (sk0 :: rest).length - 1 })

/-- `KeyManager::generate_from_master_seed` (keys.rs:140-151): derive
`N_DEFAULT` child secrets from the master seed by the external BIP-32
derivation (the deterministic parameter `derive`), then build the
levels. -/
def generate_from_master_seed (H : Nat → Nat → Nat)
    (derive : List Nat → Nat → Nat) (master_seed : List Nat) :
    Option KeyState :=
  generate_levels_internal H ((List.range N_DEFAULT).map (derive master_seed))

/-- The tail of `KeyManager::verify` (keys.rs:209-223), given the
already-computed commitment digest `hash`:
`Scalar::from_be_bytes(hash).unwrap()` panics (`none`) when the digest
is not below the curve order; each parity lift of `next_hidden` is
tweaked by point addition (`add_exp_tweak(..).unwrap()`, panicking when
the result is the point at infinity, i.e. logarithm `0`); the result is
`true` iff either tweaked point's x-only form equals `next_visible`. -/
def verifyFromHash (hash : Nat) (next_visible next_hidden : Nat) : Option Bool :=
  if curveOrder ≤ hash then none
  else
    let pOdd := (liftOdd next_hidden + hash) % curveOrder
    let pEven := (liftEven next_hidden + hash) % curveOrder
    if pOdd = 0 then none
    else if pEven = 0 then none
    else some ((xonly pOdd == next_visible) || (xonly pEven == next_visible))

/-- `KeyManager::verify` (keys.rs:200-224): recompute the commitment
digest of `prev_visible` and `next_hidden` (in that order) and check
both parity reconstructions. -/
def verify (H : Nat → Nat → Nat) (next_visible next_hidden prev_visible : Nat) :
    Option Bool :=
  verifyFromHash (H prev_visible next_hidden) next_visible next_hidden

/-- `j` consecutive calls of `KeyState::invalidate`, keeping only the
state (the returned values are pure reads of the pre-call state). -/
def iterateInv : Nat → KeyState → KeyState
  | 0, s => s
  | j + 1, s => ((iterateInv j s).invalidate).2

/-- The four operations a holder can perform on a constructed
`KeyState` (keys.rs:52-104). -/
inductive Op where
  | invalidateOp
  | currentVisiblePubkeyOp
  | currentVisibleSecretKeyOp
  | levelsOp
deriving DecidableEq, Repr

/-- State effect of one operation: `invalidate` takes `&mut self` and
threads the state; the three accessors take `&self` and cannot write
it. -/
def applyOp (o : Op) (s : KeyState) : KeyState :=
  match o with
  | Op.invalidateOp => (s.invalidate).2
  | Op.currentVisiblePubkeyOp => s
  | Op.currentVisibleSecretKeyOp => s
  | Op.levelsOp => s

/-- Run a whole sequence of operations on a state. -/
def runOps : List Op → KeyState → KeyState
  | [], s => s
  | o :: rest, s => runOps rest (applyOp o s)

/-! ## Basic facts about the embedded operations -/

theorem curveOrder_pos : 0 < curveOrder := by decide

/-- `invalidate` never touches the level vector, on either branch. -/
theorem invalidate_k (s : KeyState) : ((s.invalidate).2).k = s.k := by
  unfold KeyState.invalidate
  split_ifs <;> rfl

/-- The cursor after `invalidate` is `n - 1` (truncated subtraction:
the failing call at `n = 0` leaves the cursor at `0 = 0 - 1`). -/
theorem invalidate_n (s : KeyState) : ((s.invalidate).2).n = s.n - 1 := by
  unfold KeyState.invalidate
  split_ifs with h
  · show s.n = s.n - 1
    omega
  · rfl

theorem iterateInv_k (j : Nat) (s : KeyState) : (iterateInv j s).k = s.k := by
  induction j with
  | zero => rfl
  | succ j ih => rw [iterateInv, invalidate_k, ih]

theorem iterateInv_n (j : Nat) (s : KeyState) : (iterateInv j s).n = s.n - j := by
  induction j with
  | zero => rfl
  | succ j ih => rw [iterateInv, invalidate_n, ih]; omega

/-- In-bounds `get?` agrees with `getD`. -/
theorem get?_of_lt (l : List LevelKeys) (i : Nat) (h : i < l.length) :
    l.get? i = some (l.getD i ⟨0, 0⟩) := by
  rw [List.getD_eq_getElem?_getD, ← List.get?_eq_getElem?]
  cases hg : l.get? i with
  | none => exact absurd (List.get?_eq_none.mp hg) (by omega)
  | some a => rfl

theorem getD_map_vis (l : List LevelKeys) (j : Nat) (h : j < l.length) :
    (l.map LevelKeys.vis_pubkey).getD j 0 = (l.getD j ⟨0, 0⟩).vis_pubkey := by
  induction l generalizing j with
  | nil => simp at h
  | cons a t ih =>
    cases j with
    | zero => simp
    | succ j =>
      simp only [List.map_cons, List.getD_cons_succ]
      exact ih j (by simpa using h)

theorem getD_drop (l : List LevelKeys) (i j : Nat) :
    (l.drop i).getD j ⟨0, 0⟩ = l.getD (i + j) ⟨0, 0⟩ := by
  rw [List.getD_eq_getElem?_getD, List.getD_eq_getElem?_getD, List.getElem?_drop]

/-- Success characterization of the tweak step: it succeeds exactly
when the digest is below the curve order and the tweaked secret is
nonzero, and then the new level is `⟨(sk + hash) mod q, sk⟩`. -/
theorem nextLevelFromHash_eq_some {hash sk : Nat} {lk : LevelKeys} :
    nextLevelFromHash hash sk = some lk ↔
      hash < curveOrder ∧ (sk + hash) % curveOrder ≠ 0
        ∧ lk = ⟨(sk + hash) % curveOrder, sk⟩ := by
  unfold nextLevelFromHash
  split_ifs with h1 h2
  · simp [Nat.not_lt.mpr h1]
  · simp [h2]
  · constructor
    · intro h
      exact ⟨Nat.not_le.mp h1, h2, (Option.some.inj h).symm⟩
    · rintro ⟨-, -, rfl⟩
      rfl

/-- The failing branch of `invalidate`, spelled out. -/
theorem invalidate_err {s : KeyState} (h : s.n = 0) :
    (s.invalidate).1 = Except.error Error.NoMoreKeyLevels
    ∧ (s.invalidate).2 = s := by
  unfold KeyState.invalidate
  rw [if_pos h]
  exact ⟨rfl, rfl⟩

/-- The successful branch of `invalidate`, spelled out. -/
theorem invalidate_ok {s : KeyState} (h : s.n ≠ 0) :
    (s.invalidate).1
      = Except.ok ((s.k.getD s.n ⟨0, 0⟩).vis_pubkey,
          (s.k.getD s.n ⟨0, 0⟩).hid_pubkey,
          (s.k.getD (s.n - 1) ⟨0, 0⟩).vis_pubkey,
          (s.k.drop s.n).map LevelKeys.vis_pubkey) := by
  unfold KeyState.invalidate
  rw [if_neg h]

/-- Invariant of the `next_level` loop: every produced level stores
the supplied hidden secret, its commitment digest (previous visible
key first) is below the curve order, its visible secret is the hidden
secret plus that digest modulo the curve order, and the visible secret
is nonzero. -/
theorem buildLevels_spec (H : Nat → Nat → Nat) :
    ∀ (sks : List Nat) (cur : LevelKeys) (ks : List LevelKeys),
      buildLevels H cur sks = some ks →
      ks.length = sks.length ∧
      ∀ j, j < ks.length →
        (ks.getD j ⟨0, 0⟩).hid = sks.getD j 0
        ∧ H (((cur :: ks).getD j ⟨0, 0⟩).vis_pubkey) (xonly (ks.getD j ⟨0, 0⟩).hid)
            < curveOrder
        ∧ (ks.getD j ⟨0, 0⟩).vis
            = ((ks.getD j ⟨0, 0⟩).hid
               + H (((cur :: ks).getD j ⟨0, 0⟩).vis_pubkey)
                   (xonly (ks.getD j ⟨0, 0⟩).hid)) % curveOrder
        ∧ (ks.getD j ⟨0, 0⟩).vis ≠ 0 := by
  intro sks
  induction sks with
  | nil =>
    intro cur ks h
    simp only [buildLevels] at h
    cases h
    simp
  | cons sk rest ih =>
    intro cur ks h
    simp only [buildLevels] at h
    cases hnl : next_level H cur sk with
    | none =>
      rw [hnl] at h
      simp at h
    | some next =>
      rw [hnl] at h
      simp only [Option.map_eq_some'] at h
      obtain ⟨ks', hks', rfl⟩ := h
      obtain ⟨hlen, hinv⟩ := ih next ks' hks'
      unfold next_level at hnl
      obtain ⟨hhash, hz, rfl⟩ := nextLevelFromHash_eq_some.mp hnl
      refine ⟨by simp [hlen], ?_⟩
      intro j hj
      cases j with
      | zero =>
        simp only [List.getD_cons_zero]
        exact ⟨trivial, hhash, trivial, hz⟩
      | succ j =>
        simp only [List.getD_cons_succ]
        exact hinv j (by simpa using hj)

/-- Everything `generate_levels_internal` guarantees about a
successfully built state: sizes, cursor start, level-0 equality, the
stored hidden secrets, and the chain equation with its side facts. -/
theorem generate_spec (H : Nat → Nat → Nat) (sks : List Nat) (st : KeyState)
    (h : generate_levels_internal H sks = some st) :
    st.k.length = sks.length
    ∧ st.n = sks.length - 1
    ∧ 0 < st.k.length
    ∧ (st.k.getD 0 ⟨0, 0⟩).vis = (st.k.getD 0 ⟨0, 0⟩).hid
    ∧ (∀ j, j < st.k.length → (st.k.getD j ⟨0, 0⟩).hid = sks.getD j 0)
    ∧ ∀ i, 1 ≤ i → i < st.k.length →
        H ((st.k.getD (i - 1) ⟨0, 0⟩).vis_pubkey) ((st.k.getD i ⟨0, 0⟩).hid_pubkey)
            < curveOrder
        ∧ (st.k.getD i ⟨0, 0⟩).vis
            = ((st.k.getD i ⟨0, 0⟩).hid
               + H ((st.k.getD (i - 1) ⟨0, 0⟩).vis_pubkey)
                   ((st.k.getD i ⟨0, 0⟩).hid_pubkey)) % curveOrder
        ∧ (st.k.getD i ⟨0, 0⟩).vis ≠ 0 := by
  cases sks with
  | nil => simp [generate_levels_internal] at h
  | cons sk0 rest =>
    simp only [generate_levels_internal, Option.map_eq_some'] at h
    obtain ⟨ks, hks, hst⟩ := h
    subst hst
    obtain ⟨hlen, hinv⟩ := buildLevels_spec H rest ⟨sk0, sk0⟩ ks hks
    refine ⟨by simp [hlen], rfl, by simp, rfl, ?_, ?_⟩
    · intro j hj
      cases j with
      | zero => simp
      | succ j =>
        simp only [List.getD_cons_succ]
        exact (hinv j (by simpa using hj)).1
    · intro i h1 h2
      cases i with
      | zero => omega
      | succ j =>
        have hj : j < ks.length := by simpa using h2
        have := hinv j hj
        simp only [List.getD_cons_succ, Nat.add_sub_cancel]
        exact ⟨this.2.1, this.2.2.1, this.2.2.2⟩

/-! ## Claim C4 -/

/-- **C4.** For a well-formed key state (the `KeyState` invariant
`n < N`), `invalidate()` fails — and then precisely with the
exhausted-levels error `NoMoreKeyLevels` — if and only if the cursor
is `0`, and on failure the state (level vector and cursor together) is
returned unchanged. -/
theorem C4_invalidate_error_iff (s : KeyState) (_hlt : s.n < s.k.length) :
    (((s.invalidate).1.isOk = false) ↔ s.n = 0)
    ∧ (s.n = 0 →
        (s.invalidate).1 = Except.error Error.NoMoreKeyLevels
        ∧ (s.invalidate).2 = s) := by
  unfold KeyState.invalidate
  split_ifs with h
  · exact ⟨by simp [Except.isOk, Except.toBool, h], fun _ => ⟨rfl, rfl⟩⟩
  · exact ⟨by simp [Except.isOk, Except.toBool, h], fun h0 => absurd h0 h⟩

/-- Witness for C4 at a concrete exhausted state. -/
theorem C4_invalidate_error_iff_witness :
    (KeyState.invalidate ⟨[⟨5, 6⟩], 0⟩).1 = Except.error Error.NoMoreKeyLevels
    ∧ (KeyState.invalidate ⟨[⟨5, 6⟩], 0⟩).2 = ⟨[⟨5, 6⟩], 0⟩ :=
  (C4_invalidate_error_iff ⟨[⟨5, 6⟩], 0⟩ (by decide)).2 rfl

/-! ## Claim C10 -/

/-- **C10.** Any sequence of `invalidate`, `current_visible_pubkey`,
`current_visible_secret_key` and `levels` calls leaves the level
vector — and hence `levels()` and every level's keypairs — unchanged:
only the cursor field can change. -/
theorem C10_frame (ops : List Op) (s : KeyState) :
    (runOps ops s).k = s.k ∧ (runOps ops s).levels = s.levels := by
  induction ops generalizing s with
  | nil => exact ⟨rfl, rfl⟩
  | cons o rest ih =>
    have hk : (applyOp o s).k = s.k := by
      cases o with
      | invalidateOp => exact invalidate_k s
      | currentVisiblePubkeyOp => rfl
      | currentVisibleSecretKeyOp => rfl
      | levelsOp => rfl
    refine ⟨((ih (applyOp o s)).1).trans hk, ?_⟩
    show (runOps rest (applyOp o s)).k.length = s.k.length
    rw [(ih (applyOp o s)).1, hk]

/-! ## Claim C1 -/

/-- **C1.** For every key state built by the generators (they all
funnel into `generate_levels_internal`), level 0's visible keypair
equals its hidden keypair, and for every level `i` with
`1 ≤ i < N` the visible secret key is the hidden secret key plus the
commitment digest of the previous level's visible public key (hashed
first) and this level's hidden public key, modulo the curve order. -/
theorem C1_chain_invariant (H : Nat → Nat → Nat) (sks : List Nat) (st : KeyState)
    (h : generate_levels_internal H sks = some st) :
    (st.k.getD 0 ⟨0, 0⟩).vis = (st.k.getD 0 ⟨0, 0⟩).hid
    ∧ ∀ i, 1 ≤ i → i < st.k.length →
        (st.k.getD i ⟨0, 0⟩).vis
          = ((st.k.getD i ⟨0, 0⟩).hid
             + H ((st.k.getD (i - 1) ⟨0, 0⟩).vis_pubkey)
                 ((st.k.getD i ⟨0, 0⟩).hid_pubkey)) % curveOrder := by
  obtain ⟨-, -, -, h0, -, hi⟩ := generate_spec H sks st h
  exact ⟨h0, fun i h1 h2 => (hi i h1 h2).2.1⟩

/-- Witness for C1: the two-level state built from hidden secrets
`[1, 2]` under the constant digest `7`; level 1's visible secret is
`(2 + 7) mod q = 9`. -/
theorem C1_chain_invariant_witness :
    ((KeyState.mk [⟨1, 1⟩, ⟨9, 2⟩] 1).k.getD 1 ⟨0, 0⟩).vis
      = (((KeyState.mk [⟨1, 1⟩, ⟨9, 2⟩] 1).k.getD 1 ⟨0, 0⟩).hid
         + (fun _ _ => (7 : Nat))
             (((KeyState.mk [⟨1, 1⟩, ⟨9, 2⟩] 1).k.getD 0 ⟨0, 0⟩).vis_pubkey)
             (((KeyState.mk [⟨1, 1⟩, ⟨9, 2⟩] 1).k.getD 1 ⟨0, 0⟩).hid_pubkey))
          % curveOrder :=
  (C1_chain_invariant (fun _ _ => 7) [1, 2] (KeyState.mk [⟨1, 1⟩, ⟨9, 2⟩] 1)
      (by decide)).2 1 (by decide) (by decide)

/-! ## Claim C3 -/

/-- **C3.** For every well-formed key state with cursor `n > 0`,
`invalidate()` returns the visible and hidden public keys of level
`n`, the visible public key of level `n - 1`, and the history list of
the visible public keys of levels `n` through `N - 1` in ascending
level order (just-invalidated first): entry `j` of the history is the
visible public key of level `n + j`, the history has exactly
`N - 1 - n_after` entries, and (growth) while a further level remains,
the next successful call returns a history one entry longer. -/
theorem C3_invalidate_result (s : KeyState) (hpos : 0 < s.n)
    (hlt : s.n < s.k.length) :
    (s.invalidate).1
      = Except.ok ((s.k.getD s.n ⟨0, 0⟩).vis_pubkey,
          (s.k.getD s.n ⟨0, 0⟩).hid_pubkey,
          (s.k.getD (s.n - 1) ⟨0, 0⟩).vis_pubkey,
          (s.k.drop s.n).map LevelKeys.vis_pubkey)
    ∧ (s.invalidate).2 = ⟨s.k, s.n - 1⟩
    ∧ ((s.k.drop s.n).map LevelKeys.vis_pubkey).length
        = s.k.length - 1 - ((s.invalidate).2).n
    ∧ (∀ j, j < ((s.k.drop s.n).map LevelKeys.vis_pubkey).length →
        ((s.k.drop s.n).map LevelKeys.vis_pubkey).getD j 0
          = (s.k.getD (s.n + j) ⟨0, 0⟩).vis_pubkey)
    ∧ (1 < s.n →
        (((s.invalidate).2).invalidate).1
          = Except.ok ((((s.invalidate).2).k.getD ((s.invalidate).2).n ⟨0, 0⟩).vis_pubkey,
              (((s.invalidate).2).k.getD ((s.invalidate).2).n ⟨0, 0⟩).hid_pubkey,
              (((s.invalidate).2).k.getD (((s.invalidate).2).n - 1) ⟨0, 0⟩).vis_pubkey,
              (((s.invalidate).2).k.drop ((s.invalidate).2).n).map LevelKeys.vis_pubkey)
        ∧ ((((s.invalidate).2).k.drop ((s.invalidate).2).n).map LevelKeys.vis_pubkey).length
            = ((s.k.drop s.n).map LevelKeys.vis_pubkey).length + 1) := by
  refine ⟨invalidate_ok (by omega), ?_, ?_, ?_, ?_⟩
  · unfold KeyState.invalidate
    rw [if_neg (by omega)]
  · rw [invalidate_n, List.length_map, List.length_drop]
    omega
  · intro j hj
    have hjlen : j < (s.k.drop s.n).length := by
      simpa using hj
    rw [getD_map_vis _ j hjlen, getD_drop]
  · intro h1
    refine ⟨invalidate_ok ?_, ?_⟩
    · rw [invalidate_n]
      omega
    · rw [List.length_map, List.length_map, List.length_drop, List.length_drop,
        invalidate_k, invalidate_n]
      omega

/-- Witness for C3: invalidating the three-level state at cursor 2
moves the cursor to 1 and leaves the levels alone. -/
theorem C3_invalidate_result_witness :
    ((KeyState.mk [⟨1, 1⟩, ⟨9, 2⟩, ⟨10, 3⟩] 2).invalidate).2
      = KeyState.mk [⟨1, 1⟩, ⟨9, 2⟩, ⟨10, 3⟩] 1 :=
  (C3_invalidate_result ⟨[⟨1, 1⟩, ⟨9, 2⟩, ⟨10, 3⟩], 2⟩ (by decide) (by decide)).2.1

/-! ## Claim C7 -/

/-- **C7.** For a generated state the cursor starts at `N - 1`, equals
`N - 1 - k` after `k` invalidations, never leaves `[0, N - 1]`, each
of the first `N - 1` calls succeeds and decreases the cursor by
exactly one, and the `N`-th call fails with `NoMoreKeyLevels` leaving
the cursor at `0`. -/
theorem C7_cursor_monotone (H : Nat → Nat → Nat) (sks : List Nat) (st : KeyState)
    (h : generate_levels_internal H sks = some st) :
    st.n = st.k.length - 1
    ∧ (∀ j, (iterateInv j st).n = st.k.length - 1 - j)
    ∧ (∀ j, (iterateInv j st).n ≤ st.k.length - 1)
    ∧ (∀ j, j < st.k.length - 1 →
        ((iterateInv j st).invalidate).1
          = Except.ok (((iterateInv j st).k.getD ((iterateInv j st).n) ⟨0, 0⟩).vis_pubkey,
              ((iterateInv j st).k.getD ((iterateInv j st).n) ⟨0, 0⟩).hid_pubkey,
              ((iterateInv j st).k.getD ((iterateInv j st).n - 1) ⟨0, 0⟩).vis_pubkey,
              ((iterateInv j st).k.drop ((iterateInv j st).n)).map LevelKeys.vis_pubkey)
        ∧ (iterateInv (j + 1) st).n = (iterateInv j st).n - 1)
    ∧ ((iterateInv (st.k.length - 1) st).invalidate).1
        = Except.error Error.NoMoreKeyLevels
    ∧ ((iterateInv (st.k.length - 1) st).invalidate).2.n = 0 := by
  obtain ⟨hlen, hn, hpos, -, -, -⟩ := generate_spec H sks st h
  have hstart : st.n = st.k.length - 1 := by omega
  have hiter : ∀ j, (iterateInv j st).n = st.k.length - 1 - j := by
    intro j
    rw [iterateInv_n]
    omega
  have hzero : (iterateInv (st.k.length - 1) st).n = 0 := by
    rw [hiter]
    omega
  refine ⟨hstart, hiter, fun j => by rw [hiter]; omega, ?_, ?_, ?_⟩
  · intro j hj
    refine ⟨invalidate_ok ?_, ?_⟩
    · rw [hiter]
      omega
    · rw [iterateInv, invalidate_n]
  · exact (invalidate_err hzero).1
  · rw [invalidate_n, hzero]

/-- Witness for C7: with two levels, the second call (after one
successful invalidation) fails with `NoMoreKeyLevels`. -/
theorem C7_cursor_monotone_witness :
    ((iterateInv 1 (KeyState.mk [⟨1, 1⟩, ⟨9, 2⟩] 1)).invalidate).1
      = Except.error Error.NoMoreKeyLevels :=
  (C7_cursor_monotone (fun _ _ => 7) [1, 2] ⟨[⟨1, 1⟩, ⟨9, 2⟩], 1⟩
      (by decide)).2.2.2.2.1

/-! ## Claim C9 -/

/-- **C9.** For every state produced by a generator and any number of
subsequent invalidations, the cursor is in bounds, so
`current_visible_pubkey` and `current_visible_secret_key` never panic
and always return through the `Ok` branch. -/
theorem C9_accessors_total (H : Nat → Nat → Nat) (sks : List Nat) (st : KeyState)
    (h : generate_levels_internal H sks = some st) (j : Nat) :
    (iterateInv j st).current_visible_pubkey
      = some (Except.ok
          (((iterateInv j st).k.getD ((iterateInv j st).n) ⟨0, 0⟩).vis_pubkey))
    ∧ (iterateInv j st).current_visible_secret_key
      = some (Except.ok
          (((iterateInv j st).k.getD ((iterateInv j st).n) ⟨0, 0⟩).vis)) := by
  obtain ⟨hlen, hn, hpos, -, -, -⟩ := generate_spec H sks st h
  have hb : (iterateInv j st).n < (iterateInv j st).k.length := by
    rw [iterateInv_n, iterateInv_k]
    omega
  unfold KeyState.current_visible_pubkey KeyState.current_visible_secret_key
  rw [get?_of_lt _ _ hb]
  exact ⟨rfl, rfl⟩

/-- Witness for C9 at the two-level example state, before any
invalidation: the current visible public key is `xonly 9`. -/
theorem C9_accessors_total_witness :
    (iterateInv 0 (KeyState.mk [⟨1, 1⟩, ⟨9, 2⟩] 1)).current_visible_pubkey
      = some (Except.ok (xonly 9)) :=
  (C9_accessors_total (fun _ _ => 7) [1, 2] ⟨[⟨1, 1⟩, ⟨9, 2⟩], 1⟩ (by decide) 0).1

/-! ## Claim C8 -/

/-- **C8.** `generate_from_master_seed` is deterministic: the source
path from a master seed touches no randomness (the embedding is a pure
function of the seed, the BIP-32 derivation and the digest function),
so two builds from the same seed have identical full ordered sequences
of visible public keys across all `N` levels. -/
theorem C8_deterministic (H : Nat → Nat → Nat) (derive : List Nat → Nat → Nat)
    (seed : List Nat) (st1 st2 : KeyState)
    (h1 : generate_from_master_seed H derive seed = some st1)
    (h2 : generate_from_master_seed H derive seed = some st2) :
    st1.k.map LevelKeys.vis_pubkey = st2.k.map LevelKeys.vis_pubkey := by
  rw [Option.some_inj.mp (h1.symm.trans h2)]

set_option maxRecDepth 8192 in
/-- Witness for C8: under the constant digest `0` and the constant
derivation `1`, the seed builds the 256-level all-ones state, twice. -/
theorem C8_deterministic_witness :
    (KeyState.mk (List.replicate 256 ⟨1, 1⟩) 255).k.map LevelKeys.vis_pubkey
      = (KeyState.mk (List.replicate 256 ⟨1, 1⟩) 255).k.map LevelKeys.vis_pubkey :=
  C8_deterministic (fun _ _ => 0) (fun _ _ => 1) []
    (KeyState.mk (List.replicate 256 ⟨1, 1⟩) 255)
    (KeyState.mk (List.replicate 256 ⟨1, 1⟩) 255) (by decide) (by decide)

/-! ## Claim C5 -/

/-- **C5 counterexample.** The claim says an out-of-range or zero
commitment scalar makes construction fail with an explicit
`CurveArithmeticOverflow` error returned to the caller rather than
trapping.  In the code (keys.rs:191-192) both fallible steps are
`.unwrap()`ed — a panic, modelled by `none` — and the `Error` enum has
no overflow variant at all; moreover a zero digest is accepted by
`Scalar::from_be_bytes` and by `add_tweak` (the tweaked key `sk + 0`
is still valid), so it does not fail in any way.  Concretely: at
digest value `curveOrder` the step traps instead of returning an
error, and at digest `0` with hidden secret `1` it succeeds. -/
theorem C5_counterexample :
    nextLevelFromHash curveOrder 1 = none
    ∧ nextLevelFromHash 0 1 = some ⟨1, 1⟩ := by decide

/-- **C5 amended.** `next_level` panics (models: returns `none`, never
an error value) exactly when the commitment digest is not below the
curve order or the tweaked secret `(sk + digest) mod q` is zero; in
particular a zero digest alone does not fail. -/
theorem C5_next_level_traps (H : Nat → Nat → Nat) (prev : LevelKeys) (sk : Nat) :
    next_level H prev sk = none
      ↔ (curveOrder ≤ H prev.vis_pubkey (xonly sk)
         ∨ (sk + H prev.vis_pubkey (xonly sk)) % curveOrder = 0) := by
  unfold next_level nextLevelFromHash
  split_ifs with h1 h2
  · simp [h1]
  · simp [h2]
  · simp [h1, h2]

/-! ## Claim C6 -/

/-- **C6 counterexample.** The claim says `verify` is total and turns
any arithmetic failure during reconstruction into the boolean `false`.
In the code (keys.rs:209-221) `Scalar::from_be_bytes(hash).unwrap()`
and both `add_exp_tweak(..).unwrap()` calls panic on failure (modelled
by `none`), they do not produce `false`: a digest equal to the curve
order panics at scalar parsing, and a digest of `curveOrder - 1` with
hidden key `1` drives the even-parity reconstruction into the point at
infinity and panics there.  (The third conjunct exhibits the same trap
through `verify` itself with the digest oracle returning
`curveOrder`.) -/
theorem C6_counterexample :
    verifyFromHash curveOrder 1 1 = none
    ∧ verifyFromHash (curveOrder - 1) 1 1 = none
    ∧ verify (fun _ _ => curveOrder) 1 1 1 = none := by decide

/-- **C6 amended.** `verify` never returns an error value, but it is
not total either: it panics (models: `none`) exactly when the
recomputed digest is not below the curve order or one of the two
parity reconstructions lands on the point at infinity; on every other
input it returns a plain boolean. -/
theorem C6_verify_traps (hash nv nh : Nat) :
    verifyFromHash hash nv nh = none
      ↔ (curveOrder ≤ hash
         ∨ (liftOdd nh + hash) % curveOrder = 0
         ∨ (liftEven nh + hash) % curveOrder = 0) := by
  unfold verifyFromHash
  by_cases h1 : curveOrder ≤ hash
  · simp [h1]
  · by_cases h2 : (liftOdd nh + hash) % curveOrder = 0
    · simp [h1, h2]
    · by_cases h3 : (liftEven nh + hash) % curveOrder = 0
      · simp [h1, h2, h3]
      · simp [h1, h2, h3]

/-! ## Claim C2 -/

/-- An in-bounds `getD` is a member of the list. -/
theorem getD_mem_of_lt (l : List Nat) (i : Nat) (h : i < l.length) :
    l.getD i 0 ∈ l := by
  rw [List.getD_eq_getElem?_getD, List.getElem?_eq_getElem h]
  simp only [Option.getD_some]
  exact List.getElem_mem h

/-- A number strictly between `0` and `2m` has residue `0` mod `m`
exactly when it equals `m`. -/
theorem mod_self_eq_zero_iff (m a : Nat) (h1 : 0 < a) (h2 : a < 2 * m) :
    a % m = 0 ↔ a = m := by
  rcases Nat.lt_or_ge a m with hlt | hge
  · rw [Nat.mod_eq_of_lt hlt]
    omega
  · rw [Nat.mod_eq_sub_mod hge, Nat.mod_eq_of_lt (by omega)]
    omega

/-- Core algebra of chain verification, at the digest level: if the
hidden secret `h` is a valid secret key, the digest `diff` is in
range, the tweaked secret `(h + diff) mod q` is nonzero (all
guaranteed by a successful construction) and additionally
`diff ≠ h` (so that neither parity reconstruction is the point at
infinity), then verification of the constructed visible key against
the hidden key succeeds with `true`. -/
theorem verifyFromHash_chain (h diff : Nat) (hpos : 0 < h) (hlt : h < curveOrder)
    (hdlt : diff < curveOrder) (hvis : (h + diff) % curveOrder ≠ 0)
    (hcorner : diff ≠ h) :
    verifyFromHash diff (xonly ((h + diff) % curveOrder)) (xonly h) = some true := by
  have hqh : curveOrder - h < curveOrder := by omega
  have hxh : xonly h = min h (curveOrder - h) := by
    unfold xonly
    rw [Nat.mod_eq_of_lt hlt, Nat.mod_eq_of_lt hqh]
  have hone : (curveOrder - h + diff) % curveOrder ≠ 0 := by
    intro hc
    have := (mod_self_eq_zero_iff curveOrder (curveOrder - h + diff)
        (by omega) (by omega)).mp hc
    omega
  unfold verifyFromHash
  rw [if_neg (Nat.not_le.mpr hdlt)]
  rcases Nat.le_total h (curveOrder - h) with hle | hge
  · have hmin : xonly h = h := by rw [hxh, Nat.min_eq_left hle]
    rw [hmin]
    have hE : liftEven h = h := Nat.mod_eq_of_lt hlt
    have hO : liftOdd h = curveOrder - h := by
      unfold liftOdd
      rw [Nat.mod_eq_of_lt hlt, Nat.mod_eq_of_lt hqh]
    simp only [hE, hO]
    rw [if_neg hone, if_neg hvis]
    simp
  · have hmin : xonly h = curveOrder - h := by rw [hxh, Nat.min_eq_right hge]
    rw [hmin]
    have hE : liftEven (curveOrder - h) = curveOrder - h := Nat.mod_eq_of_lt hqh
    have hO : liftOdd (curveOrder - h) = h := by
      unfold liftOdd
      rw [Nat.mod_eq_of_lt hqh, Nat.sub_sub_self (Nat.le_of_lt hlt),
        Nat.mod_eq_of_lt hlt]
    simp only [hE, hO]
    rw [if_neg hvis, if_neg hone]
    simp

/-- **C2 counterexample.** The claim asserts
`verify(visible_i, hidden_i, visible_{i-1}) = true` for *every*
generator-built state and chain level.  With the digest oracle
returning `2`, the generator happily builds the state with hidden
secrets `[1, 2]` (digest `2` is in range and `2 + 2 = 4 ≠ 0`), but
verifying level 1 panics (models: `none`, not `true`): the digest
equals the hidden secret, so the odd-parity reconstruction
`(-2) + 2 = 0` is the point at infinity and
`add_exp_tweak(..).unwrap()` (keys.rs:210-215) panics.  Nothing in the
code excludes this digest corner. -/
theorem C2_counterexample :
    generate_levels_internal (fun _ _ => 2) [1, 2]
        = some (KeyState.mk [⟨1, 1⟩, ⟨4, 2⟩] 1)
    ∧ verify (fun _ _ => 2)
        ((KeyState.mk [⟨1, 1⟩, ⟨4, 2⟩] 1).k.getD 1 ⟨0, 0⟩).vis_pubkey
        ((KeyState.mk [⟨1, 1⟩, ⟨4, 2⟩] 1).k.getD 1 ⟨0, 0⟩).hid_pubkey
        ((KeyState.mk [⟨1, 1⟩, ⟨4, 2⟩] 1).k.getD 0 ⟨0, 0⟩).vis_pubkey
      = none := by decide

/-- **C2 amended.** For every generator-built state whose hidden
secrets are valid secret keys, and every level `1 ≤ i < N` whose
commitment digest differs from the level's hidden secret (otherwise
one parity reconstruction is the point at infinity and `verify`
panics), `verify(visible_i, hidden_i, visible_{i-1})` returns
`true`: it recomputes the digest, lifts the hidden key under both
parities, tweaks each lift, and one of the two x-only results matches
the visible key. -/
theorem C2_verify_chain (H : Nat → Nat → Nat) (sks : List Nat) (st : KeyState)
    (hgen : generate_levels_internal H sks = some st)
    (hvalid : ∀ sk ∈ sks, 0 < sk ∧ sk < curveOrder)
    (i : Nat) (h1 : 1 ≤ i) (h2 : i < st.k.length)
    (hcorner :
      H ((st.k.getD (i - 1) ⟨0, 0⟩).vis_pubkey) ((st.k.getD i ⟨0, 0⟩).hid_pubkey)
        ≠ (st.k.getD i ⟨0, 0⟩).hid) :
    verify H ((st.k.getD i ⟨0, 0⟩).vis_pubkey) ((st.k.getD i ⟨0, 0⟩).hid_pubkey)
      ((st.k.getD (i - 1) ⟨0, 0⟩).vis_pubkey) = some true := by
  obtain ⟨hlen, -, -, -, hhid, hchain⟩ := generate_spec H sks st hgen
  obtain ⟨hdlt, hveq, hvne⟩ := hchain i h1 h2
  have hmem : (st.k.getD i ⟨0, 0⟩).hid ∈ sks := by
    rw [hhid i h2]
    exact getD_mem_of_lt sks i (by omega)
  obtain ⟨hpos, hslt⟩ := hvalid _ hmem
  rw [hveq] at hvne
  have hnv : (st.k.getD i ⟨0, 0⟩).vis_pubkey
      = xonly (((st.k.getD i ⟨0, 0⟩).hid
          + H ((st.k.getD (i - 1) ⟨0, 0⟩).vis_pubkey)
              ((st.k.getD i ⟨0, 0⟩).hid_pubkey)) % curveOrder) := by
    have hv : (st.k.getD i ⟨0, 0⟩).vis_pubkey
        = xonly ((st.k.getD i ⟨0, 0⟩).vis) := rfl
    rw [hv, hveq]
  unfold verify
  rw [hnv]
  exact verifyFromHash_chain ((st.k.getD i ⟨0, 0⟩).hid)
    (H ((st.k.getD (i - 1) ⟨0, 0⟩).vis_pubkey) ((st.k.getD i ⟨0, 0⟩).hid_pubkey))
    hpos hslt hdlt hvne (fun hc => hcorner hc)

/-- Witness for the amended C2: in the two-level state built from
hidden secrets `[1, 2]` under the constant digest `7` (which differs
from the hidden secret `2`), verifying level 1 yields `true`. -/
theorem C2_verify_chain_witness :
    verify (fun _ _ => (7 : Nat)) (xonly 9) (xonly 2) (xonly 1) = some true :=
  C2_verify_chain (fun _ _ => 7) [1, 2] ⟨[⟨1, 1⟩, ⟨9, 2⟩], 1⟩ (by decide)
    (by intro sk hsk; fin_cases hsk <;> exact ⟨by decide, by decide⟩)
    1 (by decide) (by decide) (by decide)

end NIP41
